import Mathlib

/-!
Shallow embedding of the versioned local-storage migration system of the
search-by-image browser extension.

The embedded code consists of the two released migration modules:

* `src/storage/revisions/local/20250611183700_add_hive.js`
* the CopySeeker migration module (`20250613183400_add_copyseeker`)

Both modules export `message`, `revision` and an async `upgrade` procedure
with identical structure:

  const changes = {};
  const {engines, disabledEngines} =
      await browser.storage.local.get(['engines', 'disabledEngines']);
  const newEngine = '...';
  const enabledEngineCount = engines.length - disabledEngines.length;
  const anchorIndex = engines.indexOf('<anchor>');
  if (anchorIndex !== -1) {
    engines.splice(anchorIndex + 1, 0, newEngine);
  } else {
    engines.push(newEngine);
  }
  changes.engines = engines;
  if (enabledEngineCount >= 8) {
    disabledEngines.push(newEngine);
  }
  changes.disabledEngines = disabledEngines;
  changes.storageVersion = revision;
  return browser.storage.local.set(changes);

Modelling decisions:

* `browser.storage.local` is a key-value store.  The keys the migrations
  touch (`engines`, `disabledEngines`, `storageVersion`) are explicit
  `Option`-valued fields of `Store` (a key may be absent); every other
  persisted key is kept in the `other` field, untouched by the embedding
  of `set` below exactly as the real `set` leaves unmentioned keys alone.
* `get` returning `undefined` for an absent key followed by a `.length`
  access is a thrown TypeError in JS; the embedding makes `upgrade`
  return `none` in that case (the async function rejects).
* JS number subtraction on array lengths is embedded as `Int` subtraction.
* `engines.indexOf(a)` is the first index with an element equal to `a`,
  or -1; embedded with `List.findIdx?`.  `splice(i, 0, x)` inserts `x`
  at position `i`; embedded as `spliceInsert`.
-/

/-- A persisted-state snapshot of `browser.storage.local`: the three keys the
migrations read or write, each possibly absent, plus all remaining keys. -/
structure Store where
  engines : Option (List String)
  disabledEngines : Option (List String)
  storageVersion : Option String
  other : List (String × String)
deriving DecidableEq

/-- The `changes` object a migration accumulates and hands to
`browser.storage.local.set`: a partial record over the three keys. -/
structure Changes where
  engines : Option (List String)
  disabledEngines : Option (List String)
  storageVersion : Option String
deriving DecidableEq

/-- One key of a `browser.storage.local.set` call: a key present in the
changes object overwrites the stored value, an absent key leaves it. -/
def setKey {α : Type} (c : Option α) (s : Option α) : Option α :=
  match c with
  | some v => some v
  | none => s

/-- `browser.storage.local.set(changes)`: overwrites exactly the keys present
in `changes`, leaving every other persisted key unchanged. -/
def storageLocalSet (c : Changes) (s : Store) : Store :=
  { engines := setKey c.engines s.engines
    disabledEngines := setKey c.disabledEngines s.disabledEngines
    storageVersion := setKey c.storageVersion s.storageVersion
    other := s.other }

/-- A migration module: its exported `message` and `revision`, and the two
string constants its `upgrade` procedure uses (the anchor engine searched
with `indexOf` and the `newEngine` identifier inserted). -/
structure Migration where
  message : String
  revision : String
  anchor : String
  newEngine : String
deriving DecidableEq

/-- `src/storage/revisions/local/20250611183700_add_hive.js`: adds `hive`
after `unsplash`. -/
def add_hive : Migration :=
  { message := "Add Hive"
    revision := "20250611183700_add_hive"
    anchor := "unsplash"
    newEngine := "hive" }

/-- The `20250613183400_add_copyseeker` migration module: adds `copyseeker`
after `hive`. -/
def add_copyseeker : Migration :=
  { message := "Add CopySeeker"
    revision := "20250613183400_add_copyseeker"
    anchor := "hive"
    newEngine := "copyseeker" }

/-- The revision catalog: the released migrations in registration order. -/
def catalog : List Migration := [add_hive, add_copyseeker]

/-- `engines.splice(i, 0, x)`: insert `x` at position `i`. -/
def spliceInsert (i : Nat) (x : String) (l : List String) : List String :=
  l.take i ++ x :: l.drop i

/-- The engine-list mutation of an upgrade: `indexOf` the anchor; if found,
`splice` the new identifier in right after it, otherwise `push` it at the
end. -/
def upgradeEngines (m : Migration) (engines : List String) : List String :=
  match engines.findIdx? (· == m.anchor) with
  | some i => spliceInsert (i + 1) m.newEngine engines
  | none => engines ++ [m.newEngine]

/-- The disabled-list mutation of an upgrade: `push` the new identifier when
the pre-insertion enabled count reaches the threshold 8. -/
def upgradeDisabled (m : Migration) (enabledEngineCount : Int)
    (disabledEngines : List String) : List String :=
  if 8 ≤ enabledEngineCount then disabledEngines ++ [m.newEngine]
  else disabledEngines

/-- The `changes` object an upgrade builds, or `none` when the JS code throws
because `engines` or `disabledEngines` is absent (`undefined.length`). -/
def upgradeChanges (m : Migration) (s : Store) : Option Changes :=
  match s.engines, s.disabledEngines with
  | some engines, some disabledEngines =>
    let enabledEngineCount : Int :=
      (engines.length : Int) - (disabledEngines.length : Int)
    some { engines := some (upgradeEngines m engines)
           disabledEngines :=
             some (upgradeDisabled m enabledEngineCount disabledEngines)
           storageVersion := some m.revision }
  | _, _ => none

/-- A migration's `upgrade` procedure: build the `changes` object from one
consistent read, then commit it with a single `browser.storage.local.set`. -/
def upgrade (m : Migration) (s : Store) : Option Store :=
  (upgradeChanges m s).map (fun c => storageLocalSet c s)

/-- Applying a sequence of migration upgrade procedures in order, stopping at
the first failure. -/
def applySeq (ms : List Migration) (s : Store) : Option Store :=
  match ms with
  | [] => some s
  | m :: rest => (upgrade m s).bind (applySeq rest)

-- sanity checks of the embedding on concrete inputs
example :
    upgrade add_copyseeker
      { engines := some ["a", "b", "hive"], disabledEngines := some []
        storageVersion := none, other := [] } =
    some
      { engines := some ["a", "b", "hive", "copyseeker"]
        disabledEngines := some []
        storageVersion := some "20250613183400_add_copyseeker"
        other := [] } := by decide

example :
    upgrade add_hive
      { engines := some ["a", "unsplash", "b"], disabledEngines := some []
        storageVersion := none, other := [("k", "v")] } =
    some
      { engines := some ["a", "unsplash", "hive", "b"]
        disabledEngines := some []
        storageVersion := some "20250611183700_add_hive"
        other := [("k", "v")] } := by decide

example :
    upgrade add_hive
      { engines := some ["a", "b", "c", "d", "e", "f", "g", "h"]
        disabledEngines := some [], storageVersion := none, other := [] } =
    some
      { engines := some ["a", "b", "c", "d", "e", "f", "g", "h", "hive"]
        disabledEngines := some ["hive"]
        storageVersion := some "20250611183700_add_hive"
        other := [] } := by decide

example :
    upgrade add_hive
      { engines := none, disabledEngines := some []
        storageVersion := none, other := [] } = none := by decide

/-! ### Helper lemmas about the engine-list mutation -/

/-- The store an upgrade produces when both lists are present. -/
theorem upgrade_eq_some (m : Migration) (E D : List String)
    (v : Option String) (o : List (String × String)) :
    upgrade m ⟨some E, some D, v, o⟩ =
      some ⟨some (upgradeEngines m E),
            some (upgradeDisabled m ((E.length : Int) - (D.length : Int)) D),
            some m.revision, o⟩ := rfl

/-- Splicing `x` into `l` at any position is a permutation of `x :: l`. -/
theorem spliceInsert_perm (i : Nat) (x : String) (l : List String) :
    List.Perm (spliceInsert i x l) (x :: l) := by
  have h := @List.perm_middle String x (l.take i) (l.drop i)
  simpa [spliceInsert, List.take_append_drop] using h

/-- Whatever the anchor lookup finds, the mutated engine list is a
permutation of the new identifier consed onto the old list. -/
theorem upgradeEngines_perm (m : Migration) (E : List String) :
    List.Perm (upgradeEngines m E) (m.newEngine :: E) := by
  unfold upgradeEngines
  cases h : E.findIdx? (· == m.anchor) with
  | some i => exact spliceInsert_perm (i + 1) m.newEngine E
  | none =>
    have h2 := @List.perm_middle String m.newEngine E ([] : List String)
    simp only [List.append_nil] at h2
    exact h2

/-- The old engine list survives the mutation in order: it is a sublist of
the mutated list. -/
theorem upgradeEngines_sublist (m : Migration) (E : List String) :
    E.Sublist (upgradeEngines m E) := by
  unfold upgradeEngines
  cases h : E.findIdx? (· == m.anchor) with
  | some i =>
    have h1 : (E.drop (i + 1)).Sublist (m.newEngine :: E.drop (i + 1)) :=
      (List.Sublist.refl _).cons _
    have h2 := h1.append_left (E.take (i + 1))
    simpa [spliceInsert, List.take_append_drop] using h2
  | none => exact List.sublist_append_left E [m.newEngine]

/-- Membership in the mutated engine list. -/
theorem mem_upgradeEngines (m : Migration) (E : List String) (a : String) :
    a ∈ upgradeEngines m E ↔ a = m.newEngine ∨ a ∈ E := by
  rw [(upgradeEngines_perm m E).mem_iff]
  simp

/-- Length of the mutated engine list. -/
theorem length_upgradeEngines (m : Migration) (E : List String) :
    (upgradeEngines m E).length = E.length + 1 := by
  rw [(upgradeEngines_perm m E).length_eq]
  simp

/-- Occurrence count of the new identifier in the mutated engine list. -/
theorem count_upgradeEngines (m : Migration) (E : List String) :
    (upgradeEngines m E).count m.newEngine = E.count m.newEngine + 1 := by
  rw [(upgradeEngines_perm m E).count_eq]
  simp [List.count_cons]

/-- Mutating a duplicate-free engine list with a genuinely new identifier
keeps it duplicate-free. -/
theorem upgradeEngines_nodup (m : Migration) (E : List String)
    (hE : E.Nodup) (hnew : m.newEngine ∉ E) :
    (upgradeEngines m E).Nodup := by
  rw [(upgradeEngines_perm m E).nodup_iff]
  exact List.nodup_cons.mpr ⟨hnew, hE⟩

/-- If the anchor is not in the list, `indexOf` misses. -/
theorem findIdx?_eq_none_of_not_mem (a : String) (E : List String)
    (h : a ∉ E) : E.findIdx? (· == a) = none := by
  rw [List.findIdx?_eq_none_iff]
  intro x hx
  simp only [beq_eq_false_iff_ne]
  intro hxa
  exact h (hxa ▸ hx)

/-- With the anchor absent the mutation appends at the end. -/
theorem upgradeEngines_of_anchor_not_mem (m : Migration) (E : List String)
    (h : m.anchor ∉ E) : upgradeEngines m E = E ++ [m.newEngine] := by
  unfold upgradeEngines
  rw [findIdx?_eq_none_of_not_mem m.anchor E h]

/-- The disabled-list mutation keeps the subset relation with the mutated
engine list. -/
theorem upgradeDisabled_subset (m : Migration) (E D : List String)
    (c : Int) (h : D ⊆ E) :
    (upgradeDisabled m c D) ⊆ (upgradeEngines m E) := by
  intro a ha
  rw [mem_upgradeEngines]
  unfold upgradeDisabled at ha
  by_cases hc : 8 ≤ c
  · rw [if_pos hc] at ha
    rcases List.mem_append.mp ha with h1 | h1
    · exact Or.inr (h h1)
    · simp only [List.mem_singleton] at h1
      exact Or.inl h1
  · rw [if_neg hc] at ha
    exact Or.inr (h ha)

/-! ### Claim theorems -/

/-- C1: a migration's upgrade adds the new engine identifier to
`disabledEngines` exactly when the pre-insertion enabled-engine count
`length(engines) - length(disabledEngines)` is at least 8; with 7 or fewer
enabled engines the list is unchanged, so in particular with exactly 8
enabled engines the new engine ends up in `disabledEngines` and with
exactly 7 it does not. -/
theorem claim_C1_threshold_enablement (m : Migration) (_hm : m ∈ catalog)
    (E D : List String) (v : Option String) (o : List (String × String)) :
    ∃ s' : Store,
      upgrade m ⟨some E, some D, v, o⟩ = some s' ∧
      s'.disabledEngines =
        some (if 8 ≤ (E.length : Int) - (D.length : Int)
              then D ++ [m.newEngine] else D) ∧
      (m.newEngine ∉ D →
        ∀ D', s'.disabledEngines = some D' →
          (m.newEngine ∈ D' ↔ 8 ≤ (E.length : Int) - (D.length : Int))) := by
  refine ⟨_, upgrade_eq_some m E D v o, rfl, ?_⟩
  intro hnotin D' hD'
  simp only [Option.some.injEq] at hD'
  subst hD'
  unfold upgradeDisabled
  by_cases hc : 8 ≤ (E.length : Int) - (D.length : Int)
  · simp [hc]
  · simp [hc, hnotin]

/-- Witness for C1 at a state with exactly 8 enabled engines. -/
theorem claim_C1_threshold_enablement_witness :
    add_hive.newEngine ∈ (["hive"] : List String) :=
  by
    obtain ⟨s', h1, h2, h3⟩ :=
      claim_C1_threshold_enablement add_hive (by decide)
        ["a", "b", "c", "d", "e", "f", "g", "h"] [] none []
    have h4 := (h3 (by decide) ["hive"] (by rw [h2]; decide)).mpr (by decide)
    exact h4

/-- C2: the copyseeker migration inserts its identifier immediately after
the first occurrence of its anchor `hive`, appends at the end when the
anchor is absent, and on `["a", "b", "hive"]` yields
`["a", "b", "hive", "copyseeker"]`. -/
theorem claim_C2_anchor_insertion (E D : List String) (v : Option String)
    (o : List (String × String)) :
    (∀ i, E.findIdx? (· == "hive") = some i →
      ∃ s', upgrade add_copyseeker ⟨some E, some D, v, o⟩ = some s' ∧
        s'.engines =
          some (E.take (i + 1) ++ "copyseeker" :: E.drop (i + 1))) ∧
    ("hive" ∉ E →
      ∃ s', upgrade add_copyseeker ⟨some E, some D, v, o⟩ = some s' ∧
        s'.engines = some (E ++ ["copyseeker"])) ∧
    (∃ s',
      upgrade add_copyseeker ⟨some ["a", "b", "hive"], some D, v, o⟩ =
        some s' ∧
      s'.engines = some ["a", "b", "hive", "copyseeker"]) := by
  refine ⟨?_, ?_, ?_⟩
  · intro i hi
    refine ⟨_, upgrade_eq_some add_copyseeker E D v o, ?_⟩
    show some (upgradeEngines add_copyseeker E) = _
    unfold upgradeEngines
    have ha : add_copyseeker.anchor = "hive" := rfl
    rw [ha, hi]
    rfl
  · intro hna
    refine ⟨_, upgrade_eq_some add_copyseeker E D v o, ?_⟩
    show some (upgradeEngines add_copyseeker E) = _
    rw [upgradeEngines_of_anchor_not_mem add_copyseeker E hna]
    rfl
  · exact ⟨_, upgrade_eq_some add_copyseeker ["a", "b", "hive"] D v o, rfl⟩

/-- Witness for C2: the anchor-absent branch at a concrete list. -/
theorem claim_C2_anchor_insertion_witness :
    ∃ s', upgrade add_copyseeker ⟨some ["x"], some [], none, []⟩ = some s' ∧
      s'.engines = some (["x"] ++ ["copyseeker"]) :=
  (claim_C2_anchor_insertion ["x"] [] none []).2.1 (by decide)

/-- C4 counterexample: with the stored `engines` (resp. `disabledEngines`)
field absent, reading `.length` off `undefined` throws, so the upgrade does
not succeed: the claim fails at these concrete states. -/
theorem claim_C4_counterexample :
    upgrade add_hive
      { engines := none, disabledEngines := some []
        storageVersion := none, other := [] } = none ∧
    upgrade add_copyseeker
      { engines := some ["hive"], disabledEngines := none
        storageVersion := none, other := [] } = none :=
  ⟨rfl, rfl⟩

/-- C4 (amended): every catalog migration's upgrade succeeds whenever the
stored `engines` and `disabledEngines` fields are present as lists,
regardless of their contents — in particular for empty lists and for lists
missing the anchor engine. -/
theorem claim_C4_total_when_lists_present (m : Migration) (_hm : m ∈ catalog)
    (E D : List String) (v : Option String) (o : List (String × String)) :
    (upgrade m ⟨some E, some D, v, o⟩).isSome = true := by
  rw [upgrade_eq_some]
  rfl

/-- Witness for the amended C4 at the empty state (no anchor present). -/
theorem claim_C4_total_when_lists_present_witness :
    (upgrade add_hive ⟨some [], some [], none, []⟩).isSome = true :=
  claim_C4_total_when_lists_present add_hive (by decide) [] [] none []

/-- C7: the catalog's revision identifiers are strictly increasing in
registration order under lexical string comparison; in particular the
add-hive revision sorts strictly before the add-copyseeker revision. -/
theorem claim_C7_revisions_strictly_increasing :
    add_hive.revision < add_copyseeker.revision ∧
    catalog.Pairwise (fun a b => a.revision < b.revision) := by
  have hlt : add_hive.revision < add_copyseeker.revision := by
    rw [String.lt_iff_toList_lt]
    decide
  refine ⟨hlt, ?_⟩
  simp only [catalog, List.pairwise_cons, List.mem_singleton,
    forall_eq, List.not_mem_nil, false_implies, implies_true, and_true]
  exact ⟨hlt, trivial, List.Pairwise.nil⟩

/-- C8: an upgrade writes only the keys `engines`, `disabledEngines` and
`storageVersion`; every other persisted key is left unchanged. -/
theorem claim_C8_frame (m : Migration) (s s' : Store)
    (h : upgrade m s = some s') : s'.other = s.other := by
  unfold upgrade at h
  cases hc : upgradeChanges m s with
  | none => rw [hc] at h; cases h
  | some c =>
    rw [hc] at h
    simp only [Option.map_some', Option.some.injEq] at h
    subst h
    rfl

/-- Witness for C8 at a concrete state carrying an unrelated key. -/
theorem claim_C8_frame_witness :
    (Store.mk (some ["hive"]) (some []) (some "20250611183700_add_hive")
      [("k", "v")]).other =
    (Store.mk (some []) (some []) none [("k", "v")]).other :=
  claim_C8_frame add_hive
    (Store.mk (some []) (some []) none [("k", "v")])
    (Store.mk (some ["hive"]) (some []) (some "20250611183700_add_hive")
      [("k", "v")])
    rfl

/-- C9: an upgrade is unconditional: whatever the stored `storageVersion`
and even if its identifier is already in `engines`, it rewrites the marker
to its own revision and inserts one more occurrence of its identifier. -/
theorem claim_C9_unconditional_reapplication (m : Migration)
    (_hm : m ∈ catalog) (E D : List String) (v : Option String)
    (o : List (String × String)) :
    ∃ s' : Store,
      upgrade m ⟨some E, some D, v, o⟩ = some s' ∧
      s'.storageVersion = some m.revision ∧
      ∃ E', s'.engines = some E' ∧
        E'.count m.newEngine = E.count m.newEngine + 1 := by
  exact ⟨_, upgrade_eq_some m E D v o, rfl, _, rfl, count_upgradeEngines m E⟩

/-- Witness for C9 at a state whose marker already equals the migration's
revision and whose engine list already contains the identifier. -/
theorem claim_C9_unconditional_reapplication_witness :
    ∃ s' : Store,
      upgrade add_hive
        ⟨some ["hive"], some [], some add_hive.revision, []⟩ = some s' ∧
      s'.storageVersion = some add_hive.revision ∧
      ∃ E', s'.engines = some E' ∧
        E'.count add_hive.newEngine =
          (["hive"] : List String).count add_hive.newEngine + 1 :=
  claim_C9_unconditional_reapplication add_hive (by decide) ["hive"] []
    (some add_hive.revision) []

/-- C10: on an engine list not containing its identifier, an upgrade yields
a list exactly one longer in which the old list survives in order as a
sublist: nothing is removed, renamed or reordered. -/
theorem claim_C10_preserves_existing_order (m : Migration)
    (_hm : m ∈ catalog) (E : List String) (_hnew : m.newEngine ∉ E)
    (D : List String) (v : Option String) (o : List (String × String)) :
    ∃ (s' : Store) (E' : List String),
      upgrade m ⟨some E, some D, v, o⟩ = some s' ∧
      s'.engines = some E' ∧
      E'.length = E.length + 1 ∧
      E.Sublist E' := by
  exact ⟨_, _, upgrade_eq_some m E D v o, rfl, length_upgradeEngines m E,
    upgradeEngines_sublist m E⟩

/-- Witness for C10 at a concrete list with the anchor in the middle. -/
theorem claim_C10_preserves_existing_order_witness :
    ∃ (s' : Store) (E' : List String),
      upgrade add_hive
        ⟨some ["a", "unsplash", "b"], some [], none, []⟩ = some s' ∧
      s'.engines = some E' ∧
      E'.length = (["a", "unsplash", "b"] : List String).length + 1 ∧
      (["a", "unsplash", "b"] : List String).Sublist E' :=
  claim_C10_preserves_existing_order add_hive (by decide)
    ["a", "unsplash", "b"] (by decide) [] none []

/-! ### Sequence lemmas -/

/-- Subset preservation along any sequence of upgrades. -/
theorem applySeq_subset (ms : List Migration) :
    ∀ (E D : List String) (v : Option String) (o : List (String × String)),
      D ⊆ E → ∀ s', applySeq ms ⟨some E, some D, v, o⟩ = some s' →
      ∀ E' D', s'.engines = some E' → s'.disabledEngines = some D' →
      D' ⊆ E' := by
  induction ms with
  | nil =>
    intro E D v o hDE s' h E' D' hE' hD'
    simp only [applySeq, Option.some.injEq] at h
    subst h
    simp only [Option.some.injEq] at hE' hD'
    subst hE'
    subst hD'
    exact hDE
  | cons m rest ih =>
    intro E D v o hDE s' h E' D' hE' hD'
    rw [applySeq, upgrade_eq_some] at h
    exact ih _ _ _ _
      (upgradeDisabled_subset m E D ((E.length : Int) - (D.length : Int)) hDE)
      s' h E' D' hE' hD'

/-- Duplicate-freedom preservation along a sequence of upgrades whose new
identifiers are pairwise distinct and absent from the starting list. -/
theorem applySeq_nodup (ms : List Migration) :
    ∀ (E D : List String) (v : Option String) (o : List (String × String)),
      E.Nodup → (ms.map (fun m => m.newEngine)).Nodup →
      (∀ m ∈ ms, m.newEngine ∉ E) →
      ∀ s', applySeq ms ⟨some E, some D, v, o⟩ = some s' →
      ∀ E', s'.engines = some E' → E'.Nodup := by
  induction ms with
  | nil =>
    intro E D v o hE _ _ s' h E' hE'
    simp only [applySeq, Option.some.injEq] at h
    subst h
    simp only [Option.some.injEq] at hE'
    subst hE'
    exact hE
  | cons m rest ih =>
    intro E D v o hE hmap hnot s' h E' hE'
    rw [applySeq, upgrade_eq_some] at h
    have hm1 : m.newEngine ∉ E := hnot m (List.mem_cons_self m rest)
    have hmap' := List.nodup_cons.mp hmap
    refine ih (upgradeEngines m E) _ _ _
      (upgradeEngines_nodup m E hE hm1) hmap'.2 ?_ s' h E' hE'
    intro m' hm' hmem
    rw [mem_upgradeEngines] at hmem
    rcases hmem with heq | hmemE
    · have hmm : m'.newEngine ∈ rest.map (fun m => m.newEngine) :=
        List.mem_map_of_mem (fun m => m.newEngine) hm'
      rw [heq] at hmm
      exact hmap'.1 hmm
    · exact hnot m' (List.mem_cons_of_mem m hm') hmemE

/-- C3 counterexample: the engine list `["hive"]` has no duplicates, yet
applying the add-hive migration (anchor `unsplash` absent, so it appends)
yields `["hive", "hive"]`, which has a duplicate. -/
theorem claim_C3_counterexample :
    (["hive"] : List String).Nodup ∧
    applySeq [add_hive] ⟨some ["hive"], some [], none, []⟩ =
      some ⟨some ["hive", "hive"], some [],
            some "20250611183700_add_hive", []⟩ ∧
    ¬ (["hive", "hive"] : List String).Nodup :=
  ⟨by decide, rfl, by decide⟩

/-- C3 (amended): for every starting state whose engines list has no
duplicates and does not already contain the identifiers the applied
migrations introduce, applying any subsequence of the catalog's upgrades in
catalog order yields an engines list that still has no duplicates, anchor
fallback included. -/
theorem claim_C3_nodup_preserved (ms : List Migration)
    (hms : ms.Sublist catalog) (E D : List String) (v : Option String)
    (o : List (String × String)) (hE : E.Nodup)
    (hnew : ∀ m ∈ ms, m.newEngine ∉ E) (s' : Store)
    (h : applySeq ms ⟨some E, some D, v, o⟩ = some s')
    (E' : List String) (hE' : s'.engines = some E') : E'.Nodup := by
  have hcat : (catalog.map (fun m => m.newEngine)).Nodup := by decide
  have hmap : (ms.map (fun m => m.newEngine)).Nodup :=
    List.Nodup.sublist (hms.map (fun m => m.newEngine)) hcat
  exact applySeq_nodup ms E D v o hE hmap hnew s' h E' hE'

/-- Witness for the amended C3: the full catalog applied to a
duplicate-free list missing both new identifiers. -/
theorem claim_C3_nodup_preserved_witness :
    (["unsplash", "hive", "copyseeker", "x"] : List String).Nodup :=
  claim_C3_nodup_preserved catalog (List.Sublist.refl _)
    ["unsplash", "x"] [] none [] (by decide) (by decide)
    ⟨some ["unsplash", "hive", "copyseeker", "x"], some [],
     some "20250613183400_add_copyseeker", []⟩ rfl
    ["unsplash", "hive", "copyseeker", "x"] rfl

/-- C5: along any subsequence of the catalog applied in order to a state
whose disabled list is a subset of its engine list, the subset invariant
`disabledEngines ⊆ engines` is preserved. -/
theorem claim_C5_subset_invariant (ms : List Migration)
    (_hms : ms.Sublist catalog) (E D : List String) (v : Option String)
    (o : List (String × String)) (hDE : D ⊆ E) (s' : Store)
    (h : applySeq ms ⟨some E, some D, v, o⟩ = some s')
    (E' D' : List String) (hE' : s'.engines = some E')
    (hD' : s'.disabledEngines = some D') : D' ⊆ E' :=
  applySeq_subset ms E D v o hDE s' h E' D' hE' hD'

/-- Witness for C5: the full catalog applied to a concrete valid state. -/
theorem claim_C5_subset_invariant_witness :
    (["x"] : List String) ⊆ ["unsplash", "hive", "copyseeker", "x"] :=
  claim_C5_subset_invariant catalog (List.Sublist.refl _)
    ["unsplash", "x"] ["x"] none [] (by decide)
    ⟨some ["unsplash", "hive", "copyseeker", "x"], some ["x"],
     some "20250613183400_add_copyseeker", []⟩ rfl
    ["unsplash", "hive", "copyseeker", "x"] ["x"] rfl rfl

/-- C6: an upgrade commits its state mutations and its version bump
together: it builds one `changes` object that carries the updated
`engines`, `disabledEngines` and `storageVersion = revision`, and its whole
effect is a single `browser.storage.local.set` of that object. -/
theorem claim_C6_single_write (m : Migration) (_hm : m ∈ catalog)
    (s : Store) (c : Changes) (h : upgradeChanges m s = some c) :
    c.engines.isSome = true ∧ c.disabledEngines.isSome = true ∧
    c.storageVersion = some m.revision ∧
    upgrade m s = some (storageLocalSet c s) := by
  cases s with
  | mk se sd sv so =>
    cases se with
    | none => simp [upgradeChanges] at h
    | some E =>
      cases sd with
      | none => simp [upgradeChanges] at h
      | some D =>
        simp only [upgradeChanges, Option.some.injEq] at h
        subst h
        exact ⟨rfl, rfl, rfl, rfl⟩

/-- Witness for C6 at a concrete state. -/
theorem claim_C6_single_write_witness :
    (Changes.mk (some ["hive"]) (some [])
      (some "20250611183700_add_hive")).engines.isSome = true ∧
    (Changes.mk (some ["hive"]) (some [])
      (some "20250611183700_add_hive")).disabledEngines.isSome = true ∧
    (Changes.mk (some ["hive"]) (some [])
      (some "20250611183700_add_hive")).storageVersion =
        some add_hive.revision ∧
    upgrade add_hive (Store.mk (some []) (some []) none []) =
      some (storageLocalSet
        (Changes.mk (some ["hive"]) (some [])
          (some "20250611183700_add_hive"))
        (Store.mk (some []) (some []) none [])) :=
  claim_C6_single_write add_hive (by decide)
    (Store.mk (some []) (some []) none [])
    (Changes.mk (some ["hive"]) (some []) (some "20250611183700_add_hive"))
    rfl
